import Mathlib

/-!
Shallow embedding of the S3 scanning module (s3_abstraction.py) of dir_sizer:
inventory-report selection, report reading, inventory-row processing,
cost conversion, and the account-wide metrics aggregation / emission loop.
All definitions are translated from the source; machine arithmetic that the
source performs on Python ints/floats is modelled on Int/ℚ (the float
operations the claims touch are exact: ratios of powers of two and
multiplication by 2).
-/

namespace DirSizer

/-- Models Python str.startswith on the character sequence:
`sStartsWith s p` is true when `p` is an initial segment of `s`. -/
def sStartsWith (s p : String) : Bool := p.data.isPrefixOf s.data

/-- Models Python str.split with a one-character separator, on the character
sequence: grouping between separators, with empty groups kept. -/
def splitChars (sep : Char) : List Char → List (List Char)
  | [] => [[]]
  | c :: rest =>
    match splitChars sep rest with
    | [] => [[c]]
    | g :: gs => if c = sep then [] :: g :: gs else (c :: g) :: gs

/-- Python `s.split(sep)` for a one-character separator. -/
def pySplit (s : String) (sep : Char) : List String := (splitChars sep s.data).map String.mk

/-- Association-list lookup, modelling Python dict indexing `d.get(k)`. -/
def aget {β : Type} (l : List (String × β)) (k : String) : Option β :=
  (l.find? (fun kv => kv.1 == k)).map (fun kv => kv.2)

/-- Association-list update, modelling Python dict assignment `d[k] = v`. -/
def aset {β : Type} : List (String × β) → String → β → List (String × β)
  | [], k, v => [(k, v)]
  | kv :: rest, k, v => if kv.1 == k then (k, v) :: rest else kv :: aset rest k v

/-- One inventory report configuration as returned by the configuration API.
Optional dict entries of the source (`cur.get(...)`) are Option fields. -/
structure InvConfig where
  isEnabled : Bool
  format : Option String
  optionalFields : List String
  filterPfx : Option String
  frequency : Option String
  includedObjectVersions : Option String
  confId : String
  deriving DecidableEq, Repr

/-- Reads the filter entry of the config, `cur.get('Filter', \x7b\x7d).get('Prefix', '')`. -/
def filterPfxD (c : InvConfig) : String := c.filterPfx.getD ""

/-- Reads the schedule entry, `cur.get('Schedule', \x7b\x7d).get('Frequency', '')`. -/
def frequencyD (c : InvConfig) : String := c.frequency.getD ""

/-- Reads the versions entry, `cur.get('IncludedObjectVersions', '')`. -/
def versionsD (c : InvConfig) : String := c.includedObjectVersions.getD ""

/-- Reads the format entry, `cur['Destination'].get('S3BucketDestination', \x7b\x7d).get('Format', '')`. -/
def formatD (c : InvConfig) : String := c.format.getD ""

/-- Candidate filter of get_bucket_inventory (lines 162-172): CSV format, all
required optional fields present (the source compares the cardinality of the
intersection with the cardinality of the required set), and the config's
filter-prefix an initial segment of the requested scan prefix. -/
def validConfig (required : List String) (scanPfx : String) (c : InvConfig) : Bool :=
  (formatD c == "CSV")
    && ((required.filter (fun f => c.optionalFields.contains f)).length == required.length)
    && sStartsWith scanPfx (filterPfxD c)

/-- The sort key of lines 185-190: longer filter-prefix first, Daily schedule
first, Current-versions-only first, fewer optional fields first. -/
def configKey (c : InvConfig) : Int × Nat × Nat × Int :=
  (-(((filterPfxD c).length : Int)),
   (if frequencyD c == "Daily" then 1 else 2),
   (if versionsD c == "Current" then 1 else 2),
   -((c.optionalFields.length : Int)))

/-- Lexicographic strict comparison of sort keys (Python tuple comparison). -/
def keyLtB : Int × Nat × Nat × Int → Int × Nat × Nat × Int → Bool
  | (a1, a2, a3, a4), (b1, b2, b3, b4) =>
    if a1 < b1 then true
    else if b1 < a1 then false
    else if a2 < b2 then true
    else if b2 < a2 then false
    else if a3 < b3 then true
    else if b3 < a3 then false
    else decide (a4 < b4)

/-- The `possible_configs.sort(key=...)` call followed by `possible_configs[0]`: the
head of a stable sort is the first element whose key is minimal, computed here
by a fold that replaces the best candidate only on strict key decrease. -/
def selectBest : List InvConfig → Option InvConfig
  | [] => none
  | c :: cs =>
    some (cs.foldl (fun best x => if keyLtB (configKey x) (configKey best) then x else best) c)

/-- Selection part of get_bucket_inventory (lines 161-192): enabled configs
(the pagination helper of lines 141-154 yields only `IsEnabled` ones) are
filtered for validity and the best survivor is chosen. `none` models the
NoMatchingInventoryConfig exception of lines 194-201. -/
def selectInvConfig (configs : List InvConfig) (required : List String) (scanPfx : String) :
    Option InvConfig :=
  selectBest ((configs.filter (fun c => c.isEnabled)).filter (validConfig required scanPfx))

/-- Error taxonomy of the module; constructors carry what the raised messages
name. -/
inductive ScanErr where
  | noMatchingInventoryConfig (bucket scanPfx : String) (required : List String)
  | noInventoryData (confId : String)
  | clientError (code : String)
  | unknownRegionPrice (region : String)
  | keyError (key : String)
  | attributeError (msg : String)
  | valueError (s : String)
  deriving DecidableEq, Repr

/-- An inventory report manifest (creationTimestamp, fileSchema, files keys). -/
structure Manifest where
  creationTimestamp : Int
  fileSchema : String
  files : List String
  deriving DecidableEq, Repr

/-- Outcome of one `get_object` manifest fetch, classified exactly as the
exception handler of lines 223-232 classifies it. -/
inductive FetchResult where
  | found (m : Manifest)
  | noSuchKey
  | otherError (code : String)
  deriving DecidableEq, Repr

/-- Lines 220-256: walk the candidate manifests in the given order. A
NoSuchKey failure skips to exactly the next candidate, any other client error
aborts, the first fetched manifest stops the walk, and exhaustion raises the
no-inventory-data error naming the configuration id. -/
def findManifest (fetch : String → FetchResult) (confId : String) :
    List String → Except ScanErr Manifest
  | [] => .error (.noInventoryData confId)
  | r :: rest =>
    match fetch r with
    | .found m => .ok m
    | .noSuchKey => findManifest fetch confId rest
    | .otherError code => .error (.clientError code)

/-- Line 222, `for report in reports[::-1]`: the listing produced the batches
oldest-first (ascending key order), so the walk runs over the reversed list,
newest first. -/
def readLatestManifest (fetch : String → FetchResult) (confId : String)
    (reports : List String) : Except ScanErr Manifest :=
  findManifest fetch confId reports.reverse

/-- Character-level reading of the regex of line 217,
`[0-9]\x7b4\x7d-[0-9]\x7b2\x7d-[0-9]\x7b2\x7dT[0-9]\x7b2\x7d-[0-9]\x7b2\x7dZ/` :
in the pattern, a d stands for the digit class, every other character matches
itself literally. -/
def chMatch (p c : Char) : Bool := if p = 'd' then c.isDigit else p == c

/-- The regex pattern of line 217, spelled with d for each digit position. -/
def tsPat : List Char :=
  ['d', 'd', 'd', 'd', '-', 'd', 'd', '-', 'd', 'd', 'T', 'd', 'd', '-', 'd', 'd', 'Z', '/']

/-- A character list fits the timestamp-folder shape: exactly 18 characters
matching the pattern positionally. -/
def tsShape (l : List Char) : Bool :=
  (l.length == tsPat.length) && (List.zipWith chMatch tsPat l).all (fun b => b)

/-- Evaluates `re.search(pat + end-anchor, s)`: the pattern is of fixed length 18 and
the regex is anchored at the end, so a match exists exactly when the last 18
characters fit the shape. -/
def matchesReportFolder (s : String) : Bool := tsShape (s.data.drop (s.data.length - 18))

/-- Lines 214-218: among the listed common-prefix folders, keep only the ones
matching the timestamp regex (the report batches). -/
def retainReportFolders (names : List String) : List String :=
  names.filter matchesReportFolder

/-- Hex digit as accepted by percent-decoding. -/
def isHexDig (c : Char) : Bool :=
  c.isDigit || ('a' ≤ c && c ≤ 'f') || ('A' ≤ c && c ≤ 'F')

/-- Value of a hex digit. -/
def hexVal (c : Char) : Nat :=
  if c.isDigit then c.toNat - 48
  else if 'a' ≤ c && c ≤ 'f' then c.toNat - 87
  else c.toNat - 55

/-- Models urllib.parse.unquote on the character sequence: a percent sign
followed by two hex digits decodes to the character with that code, anything
else is kept literally. (Multi-byte UTF-8 escape sequences, which Python
decodes jointly, do not occur in the records the claims touch.) -/
def unquoteChars : List Char → List Char
  | [] => []
  | '%' :: a :: b :: rest =>
    if isHexDig a && isHexDig b then
      Char.ofNat (16 * hexVal a + hexVal b) :: unquoteChars rest
    else '%' :: unquoteChars (a :: b :: rest)
  | '%' :: rest => '%' :: unquoteChars rest
  | c :: rest => c :: unquoteChars rest

/-- Percent-decoding lifted back to strings. -/
def unquote (s : String) : String := String.mk (unquoteChars s.data)

/-- One parsed CSV row zipped against the manifest schema (line 250):
a field-name to value association. -/
abbrev Row := List (String × String)

/-- Decimal digit-string value, none when empty or not all digits. -/
def digitsToNat (l : List Char) : Option Nat :=
  if l = [] then none
  else if l.all Char.isDigit then
    some (l.foldl (fun acc c => 10 * acc + (c.toNat - 48)) 0)
  else none

/-- Python `int()` on a plain (optionally negated) decimal literal. -/
def pyIntParse (s : String) : Option Int :=
  match s.data with
  | '-' :: rest => (digitsToNat rest).map (fun n => -(n : Int))
  | l => (digitsToNat l).map (fun n => (n : Int))

/-- Python `int()`; anything unparsable raises ValueError. -/
def pyInt (s : String) : Except ScanErr Int :=
  match pyIntParse s with
  | some n => .ok n
  | none => .error (.valueError s)

/-- An object record as yielded by s3_list_objects. -/
structure ObjRec where
  key : String
  size : Int
  storageClass : String
  deriving DecidableEq, Repr

/-- Lines 270-277: handle one inventory row. The key is percent-decoded, then
compared against the scan prefix; matching rows are emitted with the prefix
stripped, the Size field parsed as an integer and the StorageClass field
defaulted to the empty string; non-matching rows produce nothing. Missing Key
or Size entries and unparsable sizes raise. -/
def invRowStep (scanPfx : String) (row : Row) : Except ScanErr (Option ObjRec) :=
  match aget row "Key" with
  | none => .error (.keyError "Key")
  | some k0 =>
    let key := unquote k0
    if sStartsWith key scanPfx then
      match aget row "Size" with
      | none => .error (.keyError "Size")
      | some s =>
        match pyInt s with
        | .error e => .error e
        | .ok n =>
          .ok (some { key := key.drop scanPfx.length, size := n,
                      storageClass := (aget row "StorageClass").getD "" })
    else .ok none

/-- The inventory branch of s3_list_objects (lines 264-277) as a stream:
the records yielded before the first failing row, plus the error if any. -/
def invListObjects (scanPfx : String) : List Row → List ObjRec × Option ScanErr
  | [] => ([], none)
  | row :: rest =>
    match invRowStep scanPfx row with
    | .error e => ([], some e)
    | .ok none => invListObjects scanPfx rest
    | .ok (some r) =>
      let res := invListObjects scanPfx rest
      (r :: res.1, res.2)

/-- Spec-side restatement of claim C10, written from the claim's words, to be
compared with `invListObjects`: a row is emitted exactly when its
percent-decoded key starts with the requested scan prefix, with the prefix
stripped, the size parsed, and a missing StorageClass read as the empty
string. -/
def invRowSpec (scanPfx : String) (row : Row) : Option ObjRec :=
  match aget row "Key" with
  | none => none
  | some k0 =>
    let key := unquote k0
    if sStartsWith key scanPfx then
      some { key := key.drop scanPfx.length,
             size := (pyIntParse ((aget row "Size").getD "")).getD 0,
             storageClass := (aget row "StorageClass").getD "" }
    else none

/-- Decides whether a row is processed without raising. -/
def rowOk (scanPfx : String) (row : Row) : Bool :=
  match invRowStep scanPfx row with
  | .ok _ => true
  | .error _ => false

/-- Per-record size-or-cost computation of scan_folder (lines 313-319):
`costs` is none in size mode, or the storage-class to price-per-GiB table in
cost mode; a storage class absent from the table raises KeyError. -/
def objectContribution (costs : Option (List (String × ℚ))) (r : ObjRec) : Except ScanErr ℚ :=
  match costs with
  | none => .ok (r.size : ℚ)
  | some table =>
    match aget table r.storageClass with
    | none => .error (.keyError r.storageClass)
    | some price => .ok (((r.size : ℚ) / 1073741824) * price)

/-- Decides whether a record's contribution computes without raising. -/
def contribOk (costs : Option (List (String × ℚ))) (r : ObjRec) : Bool :=
  match objectContribution costs r with
  | .ok _ => true
  | .error _ => false

/-- The computed contribution, defined on records where `contribOk` holds. -/
def contribVal (costs : Option (List (String × ℚ))) (r : ObjRec) : ℚ :=
  ((objectContribution costs r).toOption).getD 0

/-- Lines 313-322 as a stream: each record's contribution is computed before
its (path-segments, value) pair is yielded; a failure aborts the remainder.
Returns the pairs yielded before the first failure, plus the error if any. -/
def scanRecords (costs : Option (List (String × ℚ))) :
    List ObjRec → List (List String × ℚ) × Option ScanErr
  | [] => ([], none)
  | r :: rest =>
    match objectContribution costs r with
    | .error e => ([], some e)
    | .ok v =>
      let res := scanRecords costs rest
      ((pySplit r.key '/', v) :: res.1, res.2)

/-- Lines 302-311 followed by the record loop: in cost mode the bucket's
region is looked up in the pricing table before any record is read; an absent
region raises immediately, otherwise the records stream through
`scanRecords` with that region's storage-class price table. -/
def scanBucketCost (pricing : List (String × List (String × ℚ))) (region : String)
    (records : List ObjRec) : List (List String × ℚ) × Option ScanErr :=
  match aget pricing region with
  | none => ([], some (.unknownRegionPrice region))
  | some table => scanRecords (some table) records

/-- Per-bucket statistics dictionary of the account-wide mode: the CloudWatch
per-storage-type integer values (line 404), plus the derived fields written at
finalization; `countV.isSome` models the presence of the `_count` key, the
already-finalized marker of line 423. -/
structure BStats where
  classes : List (String × Int)
  sizeV : Option ℚ
  countV : Option Int
  deriving DecidableEq, Repr

/-- Lines 352-354: the tracked (storage-type, is-cost-metric) list — one
BucketSizeBytes entry per cost class plus the AllStorageTypes object count.
The cost-class list comes from the external aws_constants module and is a
parameter here. -/
def mkStorages (costClasses : List String) : List (String × Bool) :=
  costClasses.map (fun s => (s, true)) ++ [("AllStorageTypes", false)]

/-- Lines 393-404 for one bucket: store each tracked metric's integer value
into the bucket's stats entry, leaving any `_size`/`_count` keys untouched.
`metricsOf` abstracts the CloudWatch value extraction (match on the target
day or 0). -/
def writeBucketMetrics (storages : List (String × Bool)) (metricsOf : String → String → Int)
    (stats : List (String × BStats)) (b : String) : List (String × BStats) :=
  let st := (aget stats b).getD { classes := [], sizeV := none, countV := none }
  aset stats b
    { st with classes := storages.foldl (fun cl sb => aset cl sb.1 (metricsOf b sb.1)) st.classes }

/-- The metrics-storing loop of one profile pass, over that profile's
discovered buckets. -/
def writeMetricsPass (storages : List (String × Bool)) (metricsOf : String → String → Int)
    (pbuckets : List String) (stats : List (String × BStats)) : List (String × BStats) :=
  pbuckets.foldl (writeBucketMetrics storages metricsOf) stats

/-- Lines 424-434: fold the per-class metrics of one bucket into its
(size, count) summary; `costOf` is none in size mode, or the price-per-GiB
for each cost class in cost mode. Absent metrics count as 0. -/
def summarizeStats (storages : List (String × Bool)) (costOf : Option (String → ℚ))
    (st : BStats) : ℚ × Int :=
  storages.foldl
    (fun acc sb =>
      let v := (aget st.classes sb.1).getD 0
      if sb.2 then
        match costOf with
        | none => (acc.1 + (v : ℚ), acc.2)
        | some f => (acc.1 + ((v : ℚ) / 1073741824) * f sb.1, acc.2)
      else (acc.1, acc.2 + v))
    (0, 0)

/-- Line 423 with lines 435-437 for a single stats entry: an entry already
carrying the `_count` marker is returned untouched, any other entry gets
`_size`/`_count` computed and stored. -/
def finEntry (storages : List (String × Bool)) (costMode : Option (String → String → ℚ))
    (b2r : String → String) (b : String) (st : BStats) : BStats :=
  if st.countV.isSome then st
  else
    let sc := summarizeStats storages (costMode.map (fun f => f (b2r b))) st
    { st with sizeV := some sc.1, countV := some sc.2 }

/-- Lines 421-437: walk every entry of stats, finalizing the ones not yet
carrying the marker. `costMode` carries, per region, the price table; `b2r`
is the bucket-to-region map of line 358. -/
def finalizePass (storages : List (String × Bool)) (costMode : Option (String → String → ℚ))
    (b2r : String → String) (stats : List (String × BStats)) : List (String × BStats) :=
  stats.map (fun bs => (bs.1, finEntry storages costMode b2r bs.1 bs.2))

/-- One profile's discovered buckets together with the metric values its
CloudWatch queries produced. -/
structure ProfileData where
  pbuckets : List String
  metricsOf : String → String → Int

/-- The body of the `for profile in buckets` loop (lines 345-437): store that
profile's metrics, then run the finalization pass over the whole stats
dictionary. -/
def profilePass (storages : List (String × Bool)) (costMode : Option (String → String → ℚ))
    (b2r : String → String) (stats : List (String × BStats)) (pd : ProfileData) :
    List (String × BStats) :=
  finalizePass storages costMode b2r (writeMetricsPass storages pd.metricsOf pd.pbuckets stats)

/-- The whole per-profile aggregation loop, starting from the empty stats
dictionary. -/
def runProfiles (storages : List (String × Bool)) (costMode : Option (String → String → ℚ))
    (b2r : String → String) (pds : List ProfileData) : List (String × BStats) :=
  pds.foldl (profilePass storages costMode b2r) []

/-- Lines 440-443 for one stats entry: the (path, (size, count)) pair emitted
for a finalized bucket whose size and count are both positive, nothing
otherwise. Every entry is finalized by that point; an unfinalized entry
(impossible after any pass over it) would raise KeyError in the source and
emits nothing here. -/
def emitEntry (bs : String × BStats) : Option (List String × (ℚ × Int)) :=
  match bs.2.sizeV, bs.2.countV with
  | some s, some c => if s > 0 ∧ c > 0 then some ([bs.1, ""], (s, c)) else none
  | _, _ => none

/-- Lines 439-443: the final per-bucket emission loop. -/
def emitBuckets (stats : List (String × BStats)) : List (List String × (ℚ × Int)) :=
  stats.filterMap emitEntry

/-- The resolved scan options (the s3_-keyed entries of the opts dict);
`s3Pfx` renders the source's prefix option. -/
structure Opts where
  s3_bucket : Option String
  s3Pfx : Option String
  s3_profile : Option String
  s3_cost : Bool
  s3_inventory : Bool
  s3_all_buckets : Bool
  s3_endpoint : Option String
  deriving DecidableEq, Repr

/-- A Python value that may flow into get_s3: either a proper opts dict, or a
bare string — which is what get_profiles actually yields. -/
inductive PyOptsVal where
  | dict (o : Opts)
  | str (s : String)
  deriving DecidableEq, Repr

/-- Lines 99-104 as written: for each comma-separated profile name the loop
builds a per-profile copy of opts (`temp`) and then yields the bare profile
string `cur` instead of `temp`. -/
def get_profiles (o : Opts) : List PyOptsVal :=
  (pySplit (o.s3_profile.getD "") ',').map (fun cur => PyOptsVal.str cur)

/-- The per-profile opts copy that lines 102-103 construct and then discard;
yielding it is the evident intent of the loop and what the spec describes. -/
def get_profiles_intended (o : Opts) : List Opts :=
  (pySplit (o.s3_profile.getD "") ',').map (fun cur => { o with s3_profile := some cur })

/-- The S3 client configuration get_s3 extracts from its argument. -/
structure S3Client where
  endpoint : Option String
  profile : String
  deriving DecidableEq, Repr

/-- Lines 106-114 under Python dynamic typing: on a dict the client is built
from the endpoint and profile options; on a string, the membership test of
line 108 is a harmless substring test but `opts.get('s3_profile', '')` on
line 110 raises AttributeError. -/
def get_s3 (v : PyOptsVal) : Except ScanErr S3Client :=
  match v with
  | .dict o => .ok { endpoint := o.s3_endpoint, profile := o.s3_profile.getD "" }
  | .str _ => .error (.attributeError "str object has no attribute get")

/-- Sequential effectful map, stopping at the first raised error. -/
def tryMapM {α β : Type} (f : α → Except ScanErr β) : List α → Except ScanErr (List β)
  | [] => .ok []
  | a :: rest =>
    match f a with
    | .error e => .error e
    | .ok b =>
      match tryMapM f rest with
      | .error e => .error e
      | .ok bs => .ok (b :: bs)

/-- Lines 329-332 up to client construction: account-wide mode walks the
yielded profile items and builds an S3 client from each
(`s3 = get_s3(profile)`). -/
def discoverClients (o : Opts) : Except ScanErr (List S3Client) :=
  tryMapM get_s3 (get_profiles o)

/-- A concrete account-wide scan configuration with two profiles. -/
def sampleOpts : Opts :=
  { s3_bucket := none, s3Pfx := none, s3_profile := some "dev,prod",
    s3_cost := false, s3_inventory := false, s3_all_buckets := true,
    s3_endpoint := none }

/-! Helper lemmas. -/

theorem sStartsWith_iff (s p : String) :
    sStartsWith s p = true ↔ ∃ t, s.data = p.data ++ t := by
  unfold sStartsWith
  rw [ List.isPrefixOf_iff_prefix]
  constructor
  · rintro ⟨t, ht⟩
    exact ⟨t, ht.symm⟩
  · rintro ⟨t, ht⟩
    exact ⟨t, ht.symm⟩

theorem filter_length_eq_iff {α : Type} (p : α → Bool) (l : List α) :
    ((l.filter p).length = l.length) ↔ ∀ a ∈ l, p a = true := by
  constructor
  · intro h
    rw [← List.filter_eq_self (p := p)]
    exact (l.filter_sublist).eq_of_length h
  · intro h
    rw [List.filter_eq_self.mpr h]

theorem foldlBest_mem : ∀ (cs : List InvConfig) (c : InvConfig),
    cs.foldl (fun best x => if keyLtB (configKey x) (configKey best) then x else best) c ∈ c :: cs
  | [], c => by simp
  | x :: xs, c => by
    simp only [List.foldl_cons]
    by_cases hk : keyLtB (configKey x) (configKey c) = true
    · rw [if_pos hk]
      have h := foldlBest_mem xs x
      rcases List.mem_cons.mp h with h1 | h1
      · rw [h1]; simp
      · simp [List.mem_cons, h1]
    · rw [if_neg hk]
      have h := foldlBest_mem xs c
      rcases List.mem_cons.mp h with h1 | h1
      · rw [h1]; simp
      · simp [List.mem_cons, h1]

theorem selectBest_mem (l : List InvConfig) (c : InvConfig)
    (h : selectBest l = some c) : c ∈ l := by
  cases l with
  | nil => simp [selectBest] at h
  | cons x xs =>
    have hm := foldlBest_mem xs x
    simp only [selectBest, Option.some.injEq] at h
    rw [h] at hm
    exact hm

/-! Claim C1. -/

/-- C1: whenever the inventory selector chooses a configuration, that
configuration is enabled, in CSV format, its optional fields contain every
required field, and its filter-prefix is an initial segment of (possibly
equal to) the requested scan prefix; no chosen configuration violates any of
these. -/
theorem inventory_selector_sound (configs : List InvConfig) (required : List String)
    (scanPfx : String) (c : InvConfig)
    (h : selectInvConfig configs required scanPfx = some c) :
    c.isEnabled = true ∧ formatD c = "CSV" ∧ (∀ f ∈ required, f ∈ c.optionalFields)
      ∧ ∃ t, scanPfx.data = (filterPfxD c).data ++ t := by
  have hmem := selectBest_mem _ _ h
  have h2 := List.mem_filter.mp hmem
  have h3 := List.mem_filter.mp h2.1
  have hval := h2.2
  unfold validConfig at hval
  simp only [Bool.and_eq_true, beq_iff_eq] at hval
  obtain ⟨⟨hfmt, hlen⟩, hpfx⟩ := hval
  refine ⟨h3.2, hfmt, ?_, (sStartsWith_iff _ _).mp hpfx⟩
  intro f hf
  have hmemf := (filter_length_eq_iff (fun f => c.optionalFields.contains f) required).mp hlen f hf
  exact List.mem_of_elem_eq_true hmemf

/-- Witness for C1: the selector run on a concrete configuration list. -/
theorem inventory_selector_sound_witness :
    (⟨true, some "CSV", ["Size", "StorageClass"], some "data/", some "Daily", some "Current", "cfg2"⟩
        : InvConfig).isEnabled = true
      ∧ formatD ⟨true, some "CSV", ["Size", "StorageClass"], some "data/", some "Daily", some "Current", "cfg2"⟩ = "CSV"
      ∧ (∀ f ∈ ["Size"],
          f ∈ (⟨true, some "CSV", ["Size", "StorageClass"], some "data/", some "Daily", some "Current", "cfg2"⟩
            : InvConfig).optionalFields)
      ∧ ∃ t, "data/x".data
          = (filterPfxD ⟨true, some "CSV", ["Size", "StorageClass"], some "data/", some "Daily", some "Current", "cfg2"⟩).data ++ t :=
  inventory_selector_sound
    [⟨true, some "CSV", ["Size", "StorageClass"], some "data/", some "Daily", some "Current", "cfg2"⟩]
    ["Size"] "data/x"
    ⟨true, some "CSV", ["Size", "StorageClass"], some "data/", some "Daily", some "Current", "cfg2"⟩
    (by decide)

/-! Claim C2. -/

theorem keyLtB_of_fst_lt (a b : Int × Nat × Nat × Int) (h : a.1 < b.1) :
    keyLtB a b = true := by
  obtain ⟨a1, a2, a3, a4⟩ := a
  obtain ⟨b1, b2, b3, b4⟩ := b
  simp only [keyLtB]
  rw [if_pos h]

theorem keyLtB_of_fst_gt (a b : Int × Nat × Nat × Int) (h : b.1 < a.1) :
    keyLtB a b = false := by
  obtain ⟨a1, a2, a3, a4⟩ := a
  obtain ⟨b1, b2, b3, b4⟩ := b
  simp only [keyLtB]
  rw [if_neg (by omega), if_pos h]

/-- C2: among two surviving candidates whose filter-prefix lengths differ, the
one with the longer filter-prefix is chosen whichever order they are listed
in, regardless of schedule, version mode, or field count; in particular, the
(empty-prefix, Weekly, All-versions, 3-field) candidate loses to the
("data/", Daily, Current, 2-field) candidate. -/
theorem longer_filter_first :
    (∀ (c1 c2 : InvConfig) (required : List String) (scanPfx : String),
        c1.isEnabled = true → c2.isEnabled = true →
        validConfig required scanPfx c1 = true → validConfig required scanPfx c2 = true →
        (filterPfxD c1).length < (filterPfxD c2).length →
        selectInvConfig [c1, c2] required scanPfx = some c2
          ∧ selectInvConfig [c2, c1] required scanPfx = some c2)
    ∧ selectInvConfig
        [⟨true, some "CSV", ["Size", "StorageClass", "ETag"], some "", some "Weekly", some "All", "cfg1"⟩,
         ⟨true, some "CSV", ["Size", "StorageClass"], some "data/", some "Daily", some "Current", "cfg2"⟩]
        ["Size", "StorageClass"] "data/"
      = some ⟨true, some "CSV", ["Size", "StorageClass"], some "data/", some "Daily", some "Current", "cfg2"⟩ := by
  constructor
  · intro c1 c2 required scanPfx h1 h2 hv1 hv2 hlen
    have hk1 : (configKey c2).1 < (configKey c1).1 := by
      simp only [configKey]
      omega
    have hlt : keyLtB (configKey c2) (configKey c1) = true := keyLtB_of_fst_lt _ _ hk1
    have hnlt : keyLtB (configKey c1) (configKey c2) = false := keyLtB_of_fst_gt _ _ hk1
    constructor
    · simp only [selectInvConfig, List.filter, h1, h2, hv1, hv2, selectBest,
        List.foldl_cons, List.foldl_nil, hlt, if_true, Option.some.injEq]
    · simp only [selectInvConfig, List.filter, h1, h2, hv1, hv2, selectBest,
        List.foldl_cons, List.foldl_nil, hnlt, Option.some.injEq]
      rw [if_neg (by simp)]
  · decide

/-- Witness for C2: the general part applied to two concrete surviving
configurations. -/
theorem longer_filter_first_witness :
    selectInvConfig
        [⟨true, some "CSV", ["Size"], some "", some "Daily", some "Current", "a"⟩,
         ⟨true, some "CSV", ["Size"], some "d/", some "Weekly", some "All", "b"⟩]
        ["Size"] "d/x"
      = some ⟨true, some "CSV", ["Size"], some "d/", some "Weekly", some "All", "b"⟩ :=
  (longer_filter_first.1
    ⟨true, some "CSV", ["Size"], some "", some "Daily", some "Current", "a"⟩
    ⟨true, some "CSV", ["Size"], some "d/", some "Weekly", some "All", "b"⟩
    ["Size"] "d/x" rfl rfl (by decide) (by decide) (by decide)).1

/-! Claim C3. -/

theorem findManifest_ok_iff (fetch : String → FetchResult) (cid : String) :
    ∀ (l : List String) (m : Manifest),
      findManifest fetch cid l = .ok m
        ↔ ∃ pre r post, l = pre ++ r :: post ∧ (∀ x ∈ pre, fetch x = .noSuchKey)
            ∧ fetch r = .found m
  | [], m => by
    simp only [findManifest]
    constructor
    · intro h
      exact absurd h (by simp)
    · rintro ⟨pre, r, post, hsplit, -, -⟩
      exact absurd hsplit (by simp)
  | a :: l, m => by
    constructor
    · intro h
      unfold findManifest at h
      cases ha : fetch a with
      | found m0 =>
        rw [ha] at h
        simp only [Except.ok.injEq] at h
        exact ⟨[], a, l, by simp, by simp, by rw [ha, h]⟩
      | noSuchKey =>
        rw [ha] at h
        obtain ⟨pre, r, post, hsplit, hpre, hr⟩ := (findManifest_ok_iff fetch cid l m).mp h
        refine ⟨a :: pre, r, post, by simp [hsplit], ?_, hr⟩
        intro x hx
        rcases List.mem_cons.mp hx with h1 | h1
        · rw [h1]; exact ha
        · exact hpre x h1
      | otherError code =>
        rw [ha] at h
        exact absurd h (by simp)
    · rintro ⟨pre, r, post, hsplit, hpre, hr⟩
      cases pre with
      | nil =>
        simp only [List.nil_append, List.cons.injEq] at hsplit
        unfold findManifest
        rw [hsplit.1, hr]
      | cons p ps =>
        simp only [List.cons_append, List.cons.injEq] at hsplit
        have ha : fetch a = .noSuchKey := by
          rw [hsplit.1]
          exact hpre p (by simp)
        unfold findManifest
        rw [ha]
        exact (findManifest_ok_iff fetch cid l m).mpr
          ⟨ps, r, post, hsplit.2, fun x hx => hpre x (List.mem_cons_of_mem p hx), hr⟩

theorem findManifest_abort_iff (fetch : String → FetchResult) (cid : String) :
    ∀ (l : List String) (e : String),
      findManifest fetch cid l = .error (.clientError e)
        ↔ ∃ pre r post, l = pre ++ r :: post ∧ (∀ x ∈ pre, fetch x = .noSuchKey)
            ∧ fetch r = .otherError e
  | [], e => by
    simp only [findManifest]
    constructor
    · intro h
      simp only [Except.error.injEq] at h
      exact absurd h (by simp)
    · rintro ⟨pre, r, post, hsplit, -, -⟩
      exact absurd hsplit (by simp)
  | a :: l, e => by
    constructor
    · intro h
      unfold findManifest at h
      cases ha : fetch a with
      | found m0 =>
        rw [ha] at h
        exact absurd h (by simp)
      | noSuchKey =>
        rw [ha] at h
        obtain ⟨pre, r, post, hsplit, hpre, hr⟩ := (findManifest_abort_iff fetch cid l e).mp h
        refine ⟨a :: pre, r, post, by simp [hsplit], ?_, hr⟩
        intro x hx
        rcases List.mem_cons.mp hx with h1 | h1
        · rw [h1]; exact ha
        · exact hpre x h1
      | otherError code =>
        rw [ha] at h
        simp only [Except.error.injEq, ScanErr.clientError.injEq] at h
        exact ⟨[], a, l, by simp, by simp, by rw [ha, h]⟩
    · rintro ⟨pre, r, post, hsplit, hpre, hr⟩
      cases pre with
      | nil =>
        simp only [List.nil_append, List.cons.injEq] at hsplit
        unfold findManifest
        rw [hsplit.1, hr]
      | cons p ps =>
        simp only [List.cons_append, List.cons.injEq] at hsplit
        have ha : fetch a = .noSuchKey := by
          rw [hsplit.1]
          exact hpre p (by simp)
        unfold findManifest
        rw [ha]
        exact (findManifest_abort_iff fetch cid l e).mpr
          ⟨ps, r, post, hsplit.2, fun x hx => hpre x (List.mem_cons_of_mem p hx), hr⟩

theorem findManifest_noData_iff (fetch : String → FetchResult) (cid : String) :
    ∀ (l : List String),
      findManifest fetch cid l = .error (.noInventoryData cid)
        ↔ ∀ x ∈ l, fetch x = .noSuchKey
  | [] => by simp [findManifest]
  | a :: l => by
    constructor
    · intro h
      unfold findManifest at h
      cases ha : fetch a with
      | found m0 =>
        rw [ha] at h
        exact absurd h (by simp)
      | noSuchKey =>
        rw [ha] at h
        intro x hx
        rcases List.mem_cons.mp hx with h1 | h1
        · rw [h1]; exact ha
        · exact (findManifest_noData_iff fetch cid l).mp h x h1
      | otherError code =>
        rw [ha] at h
        simp at h
    · intro h
      have ha : fetch a = .noSuchKey := h a (by simp)
      unfold findManifest
      rw [ha]
      exact (findManifest_noData_iff fetch cid l).mpr
        (fun x hx => h x (List.mem_cons_of_mem a hx))

/-- C3: the reader walks the candidate batches newest-first (the reverse of
the listing order); a NoSuchKey manifest fetch moves to exactly the
next-older batch, any other fetch failure aborts the walk right there, the
first fetched manifest stops the walk, and if every batch fails with
NoSuchKey the walk ends with the no-inventory-data error naming the
configuration id. -/
theorem report_walk_characterization (fetch : String → FetchResult) (cid : String)
    (reports : List String) :
    (∀ m, readLatestManifest fetch cid reports = .ok m
        ↔ ∃ pre r post, reports.reverse = pre ++ r :: post
            ∧ (∀ x ∈ pre, fetch x = .noSuchKey) ∧ fetch r = .found m)
    ∧ (∀ e, readLatestManifest fetch cid reports = .error (.clientError e)
        ↔ ∃ pre r post, reports.reverse = pre ++ r :: post
            ∧ (∀ x ∈ pre, fetch x = .noSuchKey) ∧ fetch r = .otherError e)
    ∧ (readLatestManifest fetch cid reports = .error (.noInventoryData cid)
        ↔ ∀ x ∈ reports, fetch x = .noSuchKey) := by
  unfold readLatestManifest
  refine ⟨fun m => findManifest_ok_iff fetch cid reports.reverse m,
          fun e => findManifest_abort_iff fetch cid reports.reverse e, ?_⟩
  rw [findManifest_noData_iff fetch cid reports.reverse]
  constructor
  · intro h x hx
    exact h x (List.mem_reverse.mpr hx)
  · intro h x hx
    exact h x (List.mem_reverse.mp hx)

/-! Claim C4. -/

/-- C4: in cost mode a record's contribution is exactly
(sizeBytes / 1073741824) * pricePerGiB of its storage class; in particular a
1073741824-byte object at price 0.023 contributes exactly 0.023 and a
2147483648-byte STANDARD object at price 0.023 contributes exactly 0.046. -/
theorem cost_conversion_exact :
    (∀ (table : List (String × ℚ)) (r : ObjRec) (price : ℚ),
        aget table r.storageClass = some price →
        objectContribution (some table) r = .ok (((r.size : ℚ) / 1073741824) * price))
    ∧ objectContribution (some [("STANDARD", (0.023 : ℚ))]) ⟨"k", 1073741824, "STANDARD"⟩
        = .ok (0.023 : ℚ)
    ∧ objectContribution (some [("STANDARD", (0.023 : ℚ))]) ⟨"k", 2147483648, "STANDARD"⟩
        = .ok (0.046 : ℚ) := by
  refine ⟨?_, ?_, ?_⟩
  · intro table r price h
    simp [objectContribution, h]
  · show Except.ok _ = _
    norm_num [objectContribution, aget, List.find?]
  · show Except.ok _ = _
    norm_num [objectContribution, aget, List.find?]

/-- Witness for C4: the general conversion law applied to a concrete record
and price table. -/
theorem cost_conversion_exact_witness :
    objectContribution (some [("STANDARD", (0.023 : ℚ))]) ⟨"k", 5, "STANDARD"⟩
      = .ok ((((5 : Int) : ℚ) / 1073741824) * (0.023 : ℚ)) :=
  cost_conversion_exact.1 [("STANDARD", (0.023 : ℚ))] ⟨"k", 5, "STANDARD"⟩ (0.023 : ℚ)
    (by simp [aget, List.find?])

/-! Claim C8. -/

theorem contribOk_eq_ok (costs : Option (List (String × ℚ))) (r : ObjRec)
    (h : contribOk costs r = true) :
    objectContribution costs r = .ok (contribVal costs r) := by
  unfold contribOk at h
  unfold contribVal
  cases hc : objectContribution costs r with
  | ok v => simp [hc, Except.toOption]
  | error e => rw [hc] at h; simp at h

/-- C8 counterexample: with a priced STANDARD record ahead of an unpriced
GLACIER record, one (pathSegments, value) pair is emitted before the
unknown-storage-class failure, refuting that the scan aborts without having
emitted any output. -/
theorem cost_error_claim_false :
    scanBucketCost [("us-east-1", [("STANDARD", (0.023 : ℚ))])] "us-east-1"
        [⟨"a", 1073741824, "STANDARD"⟩, ⟨"b", 1, "GLACIER"⟩]
      = ([(["a"], (0.023 : ℚ))], some (.keyError "GLACIER")) := by
  have h2 : objectContribution (some [("STANDARD", (0.023 : ℚ))])
      ⟨"a", 1073741824, "STANDARD"⟩ = .ok (0.023 : ℚ) := by
    simp [objectContribution, aget, List.find?]
  have h3 : objectContribution (some [("STANDARD", (0.023 : ℚ))])
      ⟨"b", 1, "GLACIER"⟩ = .error (.keyError "GLACIER") := by
    simp [objectContribution, aget, List.find?]
  simp [scanBucketCost, scanRecords, aget, List.find?, h2, h3, pySplit, splitChars]

/-- C8 amended: the unknown-region-price failure is raised before any record
is read, so nothing is emitted; the unknown-storage-class failure is fatal
but is raised at the first offending record, after the pairs of all records
preceding it have already been emitted and before anything further is. -/
theorem cost_error_timing :
    (∀ (pricing : List (String × List (String × ℚ))) (region : String)
        (records : List ObjRec),
        aget pricing region = none →
        scanBucketCost pricing region records = ([], some (.unknownRegionPrice region)))
    ∧ (∀ (costs : Option (List (String × ℚ))) (e : ScanErr) (pre : List ObjRec)
         (r : ObjRec) (post : List ObjRec),
        (∀ x ∈ pre, contribOk costs x = true) →
        objectContribution costs r = .error e →
        scanRecords costs (pre ++ r :: post)
          = (pre.map (fun x => (pySplit x.key '/', contribVal costs x)), some e)) := by
  constructor
  · intro pricing region records h
    simp [scanBucketCost, h]
  · intro costs e pre r post hpre hr
    induction pre with
    | nil =>
      simp only [List.nil_append, List.map_nil]
      unfold scanRecords
      rw [hr]
    | cons x xs ih =>
      have hx : objectContribution costs x = .ok (contribVal costs x) :=
        contribOk_eq_ok costs x (hpre x (by simp))
      have hrest := ih (fun y hy => hpre y (List.mem_cons_of_mem x hy))
      simp only [List.cons_append, List.map_cons]
      unfold scanRecords
      rw [hx, hrest]

/-- Witness for C8: the amended localization applied to a concrete record
stream with one good record before the offending one. -/
theorem cost_error_timing_witness :
    scanRecords (some [("STANDARD", (0.023 : ℚ))])
        ([⟨"a", 1073741824, "STANDARD"⟩] ++ ⟨"b", 1, "GLACIER"⟩ :: [])
      = ([⟨"a", 1073741824, "STANDARD"⟩].map
          (fun x => (pySplit x.key '/', contribVal (some [("STANDARD", (0.023 : ℚ))]) x)),
         some (.keyError "GLACIER")) :=
  cost_error_timing.2 (some [("STANDARD", (0.023 : ℚ))]) (.keyError "GLACIER")
    [⟨"a", 1073741824, "STANDARD"⟩] ⟨"b", 1, "GLACIER"⟩ []
    (by decide) (by simp [objectContribution, aget, List.find?])

/-! Claim C9. -/

theorem tsShape_length (l : List Char) (h : tsShape l = true) : l.length = 18 := by
  unfold tsShape at h
  have h1 := (Bool.and_eq_true _ _).mp h
  have h2 : l.length = tsPat.length := by simpa using h1.1
  simpa [tsPat] using h2

theorem matchesReportFolder_iff (s : String) :
    matchesReportFolder s = true ↔ ∃ a t, s.data = a ++ t ∧ tsShape t = true := by
  unfold matchesReportFolder
  constructor
  · intro h
    exact ⟨s.data.take (s.data.length - 18), s.data.drop (s.data.length - 18),
      (s.data.take_append_drop (s.data.length - 18)).symm, h⟩
  · rintro ⟨a, t, hsplit, ht⟩
    have hlen : t.length = 18 := tsShape_length t ht
    rw [hsplit]
    have hlena : (a ++ t).length - 18 = a.length := by
      rw [List.length_append, hlen]
      omega
    rw [hlena, List.drop_left]
    exact ht

/-- C9: a listed common-prefix folder is retained as a candidate report batch
exactly when it ends in a sub-folder name of the UTC timestamp shape
YYYY-MM-DDTHH-MMZ/ (the timestamp regex of the source, anchored at the end);
any folder, such as a hive-partition or data folder, that does not end with
that pattern is never retained. -/
theorem report_folder_retention (names : List String) (n : String) :
    n ∈ retainReportFolders names
      ↔ n ∈ names ∧ ∃ a t, n.data = a ++ t ∧ tsShape t = true := by
  unfold retainReportFolders
  rw [List.mem_filter, matchesReportFolder_iff]

/-! Claim C10. -/

theorem invRowStep_ok_eq (scanPfx : String) (row : Row)
    (h : rowOk scanPfx row = true) :
    invRowStep scanPfx row = .ok (invRowSpec scanPfx row) := by
  unfold rowOk at h
  cases hk : aget row "Key" with
  | none =>
    unfold invRowStep at h
    rw [hk] at h
    simp at h
  | some k0 =>
    unfold invRowStep at h ⊢
    unfold invRowSpec
    rw [hk] at h ⊢
    dsimp only at h ⊢
    by_cases hs : sStartsWith (unquote k0) scanPfx = true
    · rw [if_pos hs] at h ⊢
      cases hsz : aget row "Size" with
      | none =>
        rw [hsz] at h
        simp at h
      | some sz =>
        rw [hsz] at h
        dsimp only at h ⊢
        unfold pyInt at h ⊢
        cases hn : pyIntParse sz with
        | none =>
          rw [hn] at h
          simp at h
        | some n =>
          rw [hn] at h
          simp [hs, hn]
    · rw [if_neg hs] at h
      simp [hs]

/-- C10: in inventory mode each row's key is percent-decoded before the
prefix comparison; exactly the rows whose decoded key starts with the
requested scan prefix become object records (prefix stripped, size parsed as
an integer, missing StorageClass read as the empty string), and the
non-matching rows are dropped, contributing nothing to the output. -/
theorem inventory_rows_filtered (scanPfx : String) (rows : List Row)
    (h : ∀ row ∈ rows, rowOk scanPfx row = true) :
    invListObjects scanPfx rows = (rows.filterMap (invRowSpec scanPfx), none) := by
  induction rows with
  | nil => rfl
  | cons row rest ih =>
    have hr := invRowStep_ok_eq scanPfx row (h row (by simp))
    have hrest := ih (fun r hrm => h r (List.mem_cons_of_mem row hrm))
    unfold invListObjects
    rw [hr]
    cases hspec : invRowSpec scanPfx row with
    | none =>
      simp only [List.filterMap_cons, hspec]
      exact hrest
    | some r =>
      simp only [List.filterMap_cons, hspec, hrest]

/-- Witness for C10: the stream run on three concrete rows, one of them
percent-encoded, one outside the prefix, one without a StorageClass field. -/
theorem inventory_rows_filtered_witness :
    invListObjects "data/"
        [[("Key", "data%2Fx"), ("Size", "100")],
         [("Key", "other/y"), ("Size", "5")],
         [("Key", "data/z"), ("Size", "7"), ("StorageClass", "STANDARD")]]
      = ([[("Key", "data%2Fx"), ("Size", "100")],
          [("Key", "other/y"), ("Size", "5")],
          [("Key", "data/z"), ("Size", "7"), ("StorageClass", "STANDARD")]].filterMap
           (invRowSpec "data/"), none) :=
  inventory_rows_filtered "data/"
    [[("Key", "data%2Fx"), ("Size", "100")],
     [("Key", "other/y"), ("Size", "5")],
     [("Key", "data/z"), ("Size", "7"), ("StorageClass", "STANDARD")]]
    (by decide)

/-! Claim C5. -/

theorem aget_aset_self {β : Type} (l : List (String × β)) (k : String) (v : β) :
    aget (aset l k v) k = some v := by
  induction l with
  | nil => simp [aset, aget, List.find?]
  | cons kv rest ih =>
    by_cases hk : kv.1 == k
    · simp [aset, hk, aget, List.find?]
    · simp only [aset, hk]
      rw [if_neg (by simp_all)]
      simpa [aget, List.find?, hk] using ih

theorem aget_aset_ne {β : Type} (l : List (String × β)) (k k' : String) (v : β)
    (h : (k' == k) = false) : aget (aset l k v) k' = aget l k' := by
  have hne : ¬(k' = k) := by simpa using h
  have hne2 : (k == k') = false := by
    simp only [beq_eq_false_iff_ne, ne_eq]
    exact fun he => hne he.symm
  induction l with
  | nil => simp [aset, aget, List.find?, hne2]
  | cons kv rest ih =>
    by_cases hk : (kv.1 == k) = true
    · have h1 : kv.1 = k := by simpa using hk
      simp only [aset]
      rw [if_pos hk]
      have h3 : (kv.1 == k') = false := by
        simp only [beq_eq_false_iff_ne, ne_eq, h1]
        exact fun he => hne he.symm
      simp [aget, List.find?, hne2, h3]
    · have hkf : (kv.1 == k) = false := by simpa using hk
      simp only [aset]
      rw [if_neg (by simp [hkf])]
      by_cases hkv : (kv.1 == k') = true
      · simp [aget, List.find?, hkv]
      · have hkvf : (kv.1 == k') = false := by simpa using hkv
        simpa [aget, List.find?, hkvf] using ih

theorem aget_map_entry (g : String → BStats → BStats) (l : List (String × BStats))
    (b : String) :
    aget (l.map (fun bs => (bs.1, g bs.1 bs.2))) b = (aget l b).map (g b) := by
  induction l with
  | nil => simp [aget, List.find?]
  | cons kv rest ih =>
    by_cases hk : kv.1 == b
    · have : kv.1 = b := by simpa using hk
      simp [aget, List.find?, hk, this]
    · simpa [aget, List.find?, hk] using ih

theorem finEntry_finalized (storages : List (String × Bool))
    (costMode : Option (String → String → ℚ)) (b2r : String → String) (b : String)
    (st : BStats) (h : st.countV.isSome = true) :
    finEntry storages costMode b2r b st = st := by
  unfold finEntry
  rw [if_pos h]

theorem finalizePass_preserve (storages : List (String × Bool))
    (costMode : Option (String → String → ℚ)) (b2r : String → String)
    (stats : List (String × BStats)) (b : String) (st : BStats)
    (hget : aget stats b = some st) (hfin : st.countV.isSome = true) :
    aget (finalizePass storages costMode b2r stats) b = some st := by
  unfold finalizePass
  rw [aget_map_entry, hget]
  simp [finEntry_finalized storages costMode b2r b st hfin]

theorem writeBucketMetrics_preserve (storages : List (String × Bool))
    (metricsOf : String → String → Int) (stats : List (String × BStats))
    (b b' : String) (st : BStats) (hget : aget stats b' = some st) :
    ∃ st', aget (writeBucketMetrics storages metricsOf stats b) b' = some st'
      ∧ st'.countV = st.countV ∧ st'.sizeV = st.sizeV := by
  unfold writeBucketMetrics
  by_cases hb : b' == b
  · have hbe : b' = b := by simpa using hb
    subst hbe
    rw [hget]
    refine ⟨_, aget_aset_self _ _ _, ?_, ?_⟩ <;> simp
  · rw [aget_aset_ne _ _ _ _ (by simpa using hb)]
    exact ⟨st, hget, rfl, rfl⟩

theorem writeMetricsPass_preserve (storages : List (String × Bool))
    (metricsOf : String → String → Int) (pbuckets : List String) :
    ∀ (stats : List (String × BStats)) (b' : String) (st : BStats),
      aget stats b' = some st →
      ∃ st', aget (writeMetricsPass storages metricsOf pbuckets stats) b' = some st'
        ∧ st'.countV = st.countV ∧ st'.sizeV = st.sizeV := by
  induction pbuckets with
  | nil => exact fun stats b' st h => ⟨st, h, rfl, rfl⟩
  | cons p ps ih =>
    intro stats b' st h
    obtain ⟨st1, h1, hc1, hs1⟩ := writeBucketMetrics_preserve storages metricsOf stats p b' st h
    obtain ⟨st2, h2, hc2, hs2⟩ := ih (writeBucketMetrics storages metricsOf stats p) b' st1 h1
    exact ⟨st2, h2, by rw [hc2, hc1], by rw [hs2, hs1]⟩

theorem profilePass_preserve (storages : List (String × Bool))
    (costMode : Option (String → String → ℚ)) (b2r : String → String)
    (pd : ProfileData) (stats : List (String × BStats)) (b : String) (st : BStats)
    (hget : aget stats b = some st) (hfin : st.countV.isSome = true) :
    ∃ st', aget (profilePass storages costMode b2r stats pd) b = some st'
      ∧ st'.countV = st.countV ∧ st'.sizeV = st.sizeV := by
  obtain ⟨st1, h1, hc1, hs1⟩ :=
    writeMetricsPass_preserve storages pd.metricsOf pd.pbuckets stats b st hget
  have hfin1 : st1.countV.isSome = true := by rw [hc1]; exact hfin
  refine ⟨st1, ?_, hc1, hs1⟩
  exact finalizePass_preserve storages costMode b2r _ b st1 h1 hfin1

theorem mem_aset_keys {β : Type} (l : List (String × β)) (k : String) (v : β) (x : String) :
    x ∈ (aset l k v).map Prod.fst → x ∈ l.map Prod.fst ∨ x = k := by
  induction l with
  | nil => simp [aset]
  | cons kv rest ih =>
    by_cases hk : (kv.1 == k) = true
    · simp only [aset]
      rw [if_pos hk]
      intro hx
      simp only [List.map_cons, List.mem_cons] at hx ⊢
      rcases hx with h1 | h1
      · right; exact h1
      · left; right; exact h1
    · simp only [aset]
      rw [if_neg hk]
      intro hx
      simp only [List.map_cons, List.mem_cons] at hx ⊢
      rcases hx with h1 | h1
      · left; left; exact h1
      · rcases ih h1 with h2 | h2
        · left; right; exact h2
        · right; exact h2

theorem aset_keys_nodup {β : Type} (l : List (String × β)) (k : String) (v : β)
    (h : (l.map Prod.fst).Nodup) : ((aset l k v).map Prod.fst).Nodup := by
  induction l with
  | nil => simp [aset]
  | cons kv rest ih =>
    simp only [List.map_cons, List.nodup_cons] at h
    by_cases hk : (kv.1 == k) = true
    · have h1 : kv.1 = k := by simpa using hk
      simp only [aset]
      rw [if_pos hk]
      simp only [List.map_cons, List.nodup_cons]
      exact ⟨by rw [← h1]; exact h.1, h.2⟩
    · simp only [aset]
      rw [if_neg hk]
      simp only [List.map_cons, List.nodup_cons]
      refine ⟨?_, ih h.2⟩
      intro hx
      rcases mem_aset_keys rest k v kv.1 hx with h2 | h2
      · exact h.1 h2
      · exact hk (by simp [h2])

theorem finalizePass_keys (storages : List (String × Bool))
    (costMode : Option (String → String → ℚ)) (b2r : String → String)
    (stats : List (String × BStats)) :
    (finalizePass storages costMode b2r stats).map Prod.fst = stats.map Prod.fst := by
  unfold finalizePass
  simp [List.map_map, Function.comp]

theorem writeMetricsPass_keys_nodup (storages : List (String × Bool))
    (metricsOf : String → String → Int) (pbuckets : List String) :
    ∀ (stats : List (String × BStats)), (stats.map Prod.fst).Nodup →
      ((writeMetricsPass storages metricsOf pbuckets stats).map Prod.fst).Nodup := by
  induction pbuckets with
  | nil => exact fun stats h => h
  | cons p ps ih =>
    intro stats h
    exact ih (writeBucketMetrics storages metricsOf stats p) (aset_keys_nodup _ _ _ h)

theorem profilePass_keys_nodup (storages : List (String × Bool))
    (costMode : Option (String → String → ℚ)) (b2r : String → String)
    (pd : ProfileData) (stats : List (String × BStats))
    (h : (stats.map Prod.fst).Nodup) :
    ((profilePass storages costMode b2r stats pd).map Prod.fst).Nodup := by
  unfold profilePass
  rw [finalizePass_keys]
  exact writeMetricsPass_keys_nodup storages pd.metricsOf pd.pbuckets stats h

/-- C5: the `_count` marker makes finalization idempotent across profile
passes: once a bucket's stats entry carries finalized `_size`/`_count`
values, running any further profile passes (which may rewrite that bucket's
raw metrics) leaves those finalized values unchanged, so they are computed at
most once per scan; moreover stats keeps at most one entry per bucket, so a
bucket discovered under two profiles contributes to the emitted totals
exactly once. -/
theorem finalize_at_most_once (storages : List (String × Bool))
    (costMode : Option (String → String → ℚ)) (b2r : String → String) :
    (∀ (pds : List ProfileData) (stats : List (String × BStats)) (b : String) (st : BStats),
        aget stats b = some st → st.countV.isSome = true →
        ∃ st', aget (pds.foldl (profilePass storages costMode b2r) stats) b = some st'
          ∧ st'.countV = st.countV ∧ st'.sizeV = st.sizeV)
    ∧ (∀ (pds : List ProfileData) (stats : List (String × BStats)),
        (stats.map Prod.fst).Nodup →
        ((pds.foldl (profilePass storages costMode b2r) stats).map Prod.fst).Nodup) := by
  constructor
  · intro pds
    induction pds with
    | nil => exact fun stats b st h hf => ⟨st, h, rfl, rfl⟩
    | cons pd rest ih =>
      intro stats b st h hf
      obtain ⟨st1, h1, hc1, hs1⟩ :=
        profilePass_preserve storages costMode b2r pd stats b st h hf
      have hf1 : st1.countV.isSome = true := by rw [hc1]; exact hf
      obtain ⟨st2, h2, hc2, hs2⟩ :=
        ih (profilePass storages costMode b2r stats pd) b st1 h1 hf1
      exact ⟨st2, h2, by rw [hc2, hc1], by rw [hs2, hs1]⟩
  · intro pds
    induction pds with
    | nil => exact fun stats h => h
    | cons pd rest ih =>
      intro stats h
      exact ih (profilePass storages costMode b2r stats pd)
        (profilePass_keys_nodup storages costMode b2r pd stats h)

/-- Witness for C5: one later profile pass rewrites the finalized bucket's
raw metric but its finalized size and count survive unchanged. -/
theorem finalize_at_most_once_witness :
    ∃ st', aget ([⟨["b1"], fun _ _ => 7⟩].foldl
          (profilePass (mkStorages ["StandardStorage"]) none (fun _ => "r"))
          [("b1", ⟨[("StandardStorage", 3)], some 3, some 1⟩)]) "b1" = some st'
      ∧ st'.countV = (⟨[("StandardStorage", 3)], some 3, some 1⟩ : BStats).countV
      ∧ st'.sizeV = (⟨[("StandardStorage", 3)], some 3, some 1⟩ : BStats).sizeV :=
  (finalize_at_most_once (mkStorages ["StandardStorage"]) none (fun _ => "r")).1
    [⟨["b1"], fun _ _ => 7⟩]
    [("b1", ⟨[("StandardStorage", 3)], some 3, some 1⟩)] "b1"
    ⟨[("StandardStorage", 3)], some 3, some 1⟩ rfl rfl

/-! Claim C6. -/

theorem aget_mem {β : Type} : ∀ (l : List (String × β)) (k : String) (v : β),
    aget l k = some v → (k, v) ∈ l
  | [], k, v => by
    intro h
    simp [aget, List.find?] at h
  | kv :: rest, k, v => by
    intro h
    by_cases hk : (kv.1 == k) = true
    · have h1 : kv.1 = k := by simpa using hk
      have h2 : kv.2 = v := by
        simp only [aget, List.find?, hk] at h
        simpa using h
      have h3 : (k, v) = kv := by rw [← h1, ← h2]
      rw [h3]
      exact List.mem_cons_self _ _
    · have hkf : (kv.1 == k) = false := by simpa using hk
      simp only [aget, List.find?, hkf] at h
      exact List.mem_cons_of_mem kv (aget_mem rest k v h)

theorem aget_of_mem_nodup {β : Type} : ∀ (l : List (String × β)) (k : String) (v : β),
    (l.map Prod.fst).Nodup → (k, v) ∈ l → aget l k = some v
  | [], k, v => by
    intro _ hm
    simp at hm
  | kv :: rest, k, v => by
    intro hnd hm
    simp only [List.map_cons, List.nodup_cons] at hnd
    rcases List.mem_cons.mp hm with h1 | h1
    · rw [← h1]
      simp [aget, List.find?]
    · by_cases hk : (kv.1 == k) = true
      · exfalso
        have h2 : kv.1 = k := by simpa using hk
        have h3 : k ∈ rest.map Prod.fst := List.mem_map.mpr ⟨(k, v), h1, rfl⟩
        exact hnd.1 (by rw [h2]; exact h3)
      · have hkf : (kv.1 == k) = false := by simpa using hk
        simp only [aget, List.find?, hkf]
        exact aget_of_mem_nodup rest k v hnd.2 h1

theorem countP_filterMap_le {α β : Type} (f : α → Option β) (p : β → Bool) (q : α → Bool)
    (hpq : ∀ a out, f a = some out → p out = true → q a = true) :
    ∀ l : List α, (l.filterMap f).countP p ≤ l.countP q
  | [] => by simp
  | a :: l => by
    have ih := countP_filterMap_le f p q hpq l
    cases hf : f a with
    | none =>
      rw [List.filterMap_cons_none hf, List.countP_cons]
      omega
    | some out =>
      rw [List.filterMap_cons_some hf, List.countP_cons, List.countP_cons]
      by_cases hp : p out = true
      · have hq := hpq a out hf hp
        rw [hp, hq]
        omega
      · have hpf : p out = false := by simpa using hp
        rw [hpf]
        simp only [Bool.false_eq_true, if_false]
        omega

/-- C6 counterexample: a finalized bucket with positive size 5 but count 0 is
omitted from the emission, refuting that every bucket with a positive
finalized size or count is emitted (and that only both-zero buckets are
omitted). -/
theorem emission_claim_false :
    emitBuckets [("b1", ⟨[], some 5, some 0⟩)] = [] ∧ (0 : ℚ) < 5 := by
  constructor
  · rfl
  · norm_num

/-- C6 amended: a finalized bucket is emitted, once, with its (size, count)
pair exactly when its finalized size and finalized count are BOTH positive;
a bucket with size zero or count zero (even if the other is positive) is
omitted. -/
theorem emission_characterization (stats : List (String × BStats)) (b : String)
    (st : BStats) (s : ℚ) (c : Int)
    (hnd : (stats.map Prod.fst).Nodup)
    (hget : aget stats b = some st) (hs : st.sizeV = some s) (hc : st.countV = some c) :
    (([b, ""], (s, c)) ∈ emitBuckets stats ↔ (s > 0 ∧ c > 0))
    ∧ (∀ v, ([b, ""], v) ∈ emitBuckets stats → v = (s, c))
    ∧ (emitBuckets stats).countP (fun e => e.1 == [b, ""]) ≤ 1 := by
  have hmem : (b, st) ∈ stats := aget_mem stats b st hget
  have hentry : emitEntry (b, st)
      = if s > 0 ∧ c > 0 then some ([b, ""], (s, c)) else none := by
    unfold emitEntry
    dsimp only
    rw [hs, hc]
  refine ⟨⟨?_, ?_⟩, ?_, ?_⟩
  · intro hin
    obtain ⟨⟨k, st'⟩, hbs, hf⟩ := List.mem_filterMap.mp hin
    unfold emitEntry at hf
    dsimp only at hf
    cases hsv : st'.sizeV with
    | none => rw [hsv] at hf; simp at hf
    | some s' =>
      cases hcv : st'.countV with
      | none => rw [hsv, hcv] at hf; simp at hf
      | some c' =>
        rw [hsv, hcv] at hf
        dsimp only at hf
        by_cases hp : s' > 0 ∧ c' > 0
        · rw [if_pos hp] at hf
          simp only [Option.some.injEq, Prod.mk.injEq, List.cons.injEq] at hf
          obtain ⟨-, hsc⟩ := hf
          rw [← hsc.1, ← hsc.2]
          exact hp
        · rw [if_neg hp] at hf
          simp at hf
  · intro hp
    refine List.mem_filterMap.mpr ⟨(b, st), hmem, ?_⟩
    rw [hentry, if_pos hp]
  · intro v hv
    obtain ⟨⟨k, st'⟩, hbs, hf⟩ := List.mem_filterMap.mp hv
    have hk : k = b := by
      unfold emitEntry at hf
      dsimp only at hf
      cases hsv : st'.sizeV with
      | none => rw [hsv] at hf; simp at hf
      | some s' =>
        cases hcv : st'.countV with
        | none => rw [hsv, hcv] at hf; simp at hf
        | some c' =>
          rw [hsv, hcv] at hf
          dsimp only at hf
          by_cases hp : s' > 0 ∧ c' > 0
          · rw [if_pos hp] at hf
            simp only [Option.some.injEq, Prod.mk.injEq, List.cons.injEq] at hf
            exact hf.1.1
          · rw [if_neg hp] at hf
            simp at hf
    subst hk
    have hst' : st' = st := by
      have := aget_of_mem_nodup stats k st' hnd hbs
      rw [hget] at this
      simpa using this.symm
    subst hst'
    rw [hentry] at hf
    by_cases hp : s > 0 ∧ c > 0
    · rw [if_pos hp] at hf
      simpa using hf.symm
    · rw [if_neg hp] at hf
      simp at hf
  · have hle := countP_filterMap_le emitEntry (fun e => e.1 == [b, ""])
      (fun kv => kv.1 == b) ?_ stats
    · have hcount : (stats.map Prod.fst).count b ≤ 1 :=
        List.nodup_iff_count_le_one.mp hnd b
      rw [List.count_eq_countP] at hcount
      rw [List.countP_map] at hcount
      calc (emitBuckets stats).countP (fun e => e.1 == [b, ""])
          ≤ stats.countP (fun kv => kv.1 == b) := hle
        _ ≤ 1 := by
            refine le_trans (le_of_eq ?_) hcount
            rfl
    · intro bs out hf hp
      unfold emitEntry at hf
      rcases bs with ⟨k, st'⟩
      dsimp only at hf ⊢
      cases hsv : st'.sizeV with
      | none => rw [hsv] at hf; simp at hf
      | some s' =>
        cases hcv : st'.countV with
        | none => rw [hsv, hcv] at hf; simp at hf
        | some c' =>
          rw [hsv, hcv] at hf
          dsimp only at hf
          by_cases hq : s' > 0 ∧ c' > 0
          · rw [if_pos hq] at hf
            have h1 : out = ([k, ""], (s', c')) := by simpa using hf.symm
            rw [h1] at hp
            have h2 : k = b := by
              have h3 : ([k, ""] : List String) = [b, ""] := by simpa using hp
              simpa using h3
            simp [h2]
          · rw [if_neg hq] at hf
            simp at hf

/-- Witness for C6: a two-bucket stats dictionary where only the
both-positive bucket is emitted. -/
theorem emission_characterization_witness :
    (([("b1" : String), ""], ((5 : ℚ), (2 : Int)))
        ∈ emitBuckets [("b1", ⟨[], some 5, some 2⟩)] ↔ ((5 : ℚ) > 0 ∧ (2 : Int) > 0)) :=
  (emission_characterization [("b1", ⟨[], some 5, some 2⟩)] "b1"
    ⟨[], some 5, some 2⟩ 5 2 (by simp) rfl rfl rfl).1

/-! Claim C7. -/

/-- C7 (code bug): get_profiles yields the bare profile strings, not the
per-profile opts copies it builds, so the very first client construction of
the account-wide loop (`get_s3(profile)` on line 330) calls `.get` on a
string and raises AttributeError — no per-profile client is ever configured.
The per-profile opts copies the loop constructs and discards (and the spec
describes) are exhibited by `get_profiles_intended`. -/
theorem profiles_yield_code_bug :
    discoverClients sampleOpts = .error (.attributeError "str object has no attribute get")
    ∧ get_profiles sampleOpts = [.str "dev", .str "prod"]
    ∧ get_profiles_intended sampleOpts
      = [{ sampleOpts with s3_profile := some "dev" },
         { sampleOpts with s3_profile := some "prod" }]
    ∧ (∀ o : Opts, ∀ v ∈ get_profiles o, ∃ s, v = .str s) := by
  refine ⟨rfl, by decide, by decide, ?_⟩
  intro o v hv
  obtain ⟨cur, -, hcur⟩ := List.mem_map.mp hv
  exact ⟨cur, hcur.symm⟩

/-- Witness for C3: a one-batch listing where the only manifest fetch fails
with NoSuchKey ends in the no-inventory-data error. -/
theorem report_walk_characterization_witness :
    readLatestManifest (fun _ => FetchResult.noSuchKey) "cfg" ["a"]
      = .error (.noInventoryData "cfg") :=
  (report_walk_characterization (fun _ => FetchResult.noSuchKey) "cfg" ["a"]).2.2.mpr
    (fun _ _ => rfl)

/-- Witness for C9: a timestamp-suffixed folder is retained from a concrete
listing that also contains a data folder. -/
theorem report_folder_retention_witness :
    "inv/b/cfg/2024-01-01T00-00Z/"
      ∈ retainReportFolders ["inv/b/cfg/2024-01-01T00-00Z/", "inv/b/cfg/data/"] :=
  (report_folder_retention ["inv/b/cfg/2024-01-01T00-00Z/", "inv/b/cfg/data/"]
      "inv/b/cfg/2024-01-01T00-00Z/").mpr
    ⟨by decide, "inv/b/cfg/".data, "2024-01-01T00-00Z/".data, by decide, by decide⟩

/-- Witness for C7: the first item yielded for the sample options is the bare
string "dev". -/
theorem profiles_yield_code_bug_witness :
    ∃ s, PyOptsVal.str "dev" = PyOptsVal.str s :=
  profiles_yield_code_bug.2.2.2 sampleOpts (PyOptsVal.str "dev") (by decide)

end DirSizer
